import Mathlib

/-!
Verification of the PAN detection-validation-masking engine of
`SqlSupport_V2.py`: the Sanitizer (separator stripping), the Extractor
(the regex scan for 13-to-19-digit runs), the Luhn Validator, the Masker,
the column-type filter, and the finding aggregation / report export.
Each definition is a shallow embedding of the corresponding Python code.
-/

namespace SqlSupport

/-- An ASCII decimal digit character (codepoints 48 through 57). -/
def isDig (c : Char) : Bool := decide (48 ≤ c.toNat ∧ c.toNat ≤ 57)

/-- Python `int(c)` on a one-character string: the digit value, or `none`
for the `ValueError` raised on a non-digit character. -/
def pyIntChar (c : Char) : Option Nat :=
  if 48 ≤ c.toNat ∧ c.toNat ≤ 57 then some (c.toNat - 48) else none

/-- The loop of `is_luhn_valid`, processing the characters of the card
number from the rightmost one leftwards (the argument list is the reversed
character list).  `isSecond` toggles at each step; the doubled value `d`
contributes `d / 10 + d % 10`.  A non-digit character propagates `none`
(the caught `ValueError`). -/
def luhnSumAux : List Char → Bool → Option Nat
  | [], _ => some 0
  | c :: cs, isSecond =>
    match pyIntChar c with
    | none => none
    | some d0 =>
      match luhnSumAux cs (!isSecond) with
      | none => none
      | some s =>
        some ((if isSecond then d0 * 2 else d0) / 10
              + (if isSecond then d0 * 2 else d0) % 10 + s)

/-- `is_luhn_valid` from the source: Luhn checksum over the characters of
`card_number`, scanning from the rightmost index down to 0; any exception
yields `False`. -/
def is_luhn_valid (card_number : String) : Bool :=
  match luhnSumAux card_number.data.reverse false with
  | some n_sum => n_sum % 10 == 0
  | none => false

/-- `mask_pan` from the source: below 10 characters the sentinel
`"Invalid PAN"`; otherwise the first 6 characters, then `len - 10`
asterisks, then the last 4 characters. -/
def mask_pan (pan : String) : String :=
  if pan.length < 10 then "Invalid PAN"
  else ⟨pan.data.take 6 ++ List.replicate (pan.length - 10) '*'
        ++ pan.data.drop (pan.length - 4)⟩

/-- Python `s.replace(sep, '')`: every occurrence of the character `sep`
is removed, all other characters kept in order. -/
def removeChar (sep : Char) : List Char → List Char
  | [] => []
  | c :: cs => if c = sep then removeChar sep cs else c :: removeChar sep cs

/-- The Sanitizer from the source:
`cell_value.replace(' ', '').replace('-', '')`. -/
def sanitizeL (l : List Char) : List Char := removeChar '-' (removeChar ' ' l)

/-- Length of the digit run starting at the head of the list. -/
def digitRun (l : List Char) : Nat := (l.takeWhile isDig).length

/-- One scan of `re.findall` for the pattern of 13 to 19 digits, with
explicit fuel (one unit per scan position) to keep the recursion
structural.  At each position the engine greedily matches up to 19 digits
provided at least 13 are available, then resumes after the match;
otherwise it advances one character. -/
def findallAux : Nat → List Char → List (List Char)
  | 0, _ => []
  | _ + 1, [] => []
  | fuel + 1, c :: cs =>
    if 13 ≤ digitRun (c :: cs) then
      ((c :: cs).take (min (digitRun (c :: cs)) 19))
        :: findallAux fuel ((c :: cs).drop (min (digitRun (c :: cs)) 19))
    else findallAux fuel cs

/-- `pan_regex.findall`: all matches of `\d{13,19}` in left-to-right scan
order, as produced by the Python regex engine. -/
def findall (l : List Char) : List (List Char) := findallAux l.length l

/-- The extraction pipeline applied to one cell value: sanitize, then run
the 13-to-19-digit scan. -/
def extractCandidates (s : String) : List (List Char) :=
  findall (sanitizeL s.data)

/-- Whether `needle` is a prefix of `haystack`, by direct character
comparison. -/
def startsWithL : List Char → List Char → Bool
  | [], _ => true
  | _ :: _, [] => false
  | n :: ns, h :: hs => n == h && startsWithL ns hs

/-- Python `needle in haystack` for strings: some position of `haystack`
starts with `needle`. -/
def containsSub (needle : List Char) : List Char → Bool
  | [] => needle.isEmpty
  | c :: cs => startsWithL needle (c :: cs) || containsSub needle cs

/-- Python `str.upper()` on one ASCII character: lowercase letters are
shifted to uppercase, everything else is unchanged. -/
def pyUpperChar (c : Char) : Char :=
  if 97 ≤ c.toNat ∧ c.toNat ≤ 122 then Char.ofNat (c.toNat - 32) else c

/-- Python `str.upper()` over a character list (ASCII model). -/
def pyUpper (l : List Char) : List Char := l.map pyUpperChar

/-- The fixed keyword set of the column filter in
`scan_hosts_and_databases`. -/
def typeKeywords : List String :=
  ["CHAR", "VARCHAR", "TEXT", "TINYTEXT", "MEDIUMTEXT", "LONGTEXT", "JSON"]

/-- The column filter: a column is selected for scanning when its declared
type string, uppercased, contains one of the keywords as a substring. -/
def scannableType (colType : String) : Bool :=
  typeKeywords.any fun t => containsSub t.data (pyUpper colType.data)

/-- A finding accumulated by the scan: the unmasked PAN and its location
string. -/
structure Finding where
  pan : String
  location : String
deriving Repr, DecidableEq

/-- One row of the exported report: `Result #`, `Masked PAN`, `Location`. -/
structure ReportEntry where
  resultNum : Nat
  maskedPan : String
  location : String
deriving Repr, DecidableEq

/-- `all_findings.append({'PAN': pan, 'Location': location})`. -/
def appendFinding (findings : List Finding) (pan location : String) :
    List Finding :=
  findings ++ [⟨pan, location⟩]

/-- The findings list obtained by appending each `(pan, location)` pair in
turn, starting from the empty list. -/
def buildFindings (pairs : List (String × String)) : List Finding :=
  pairs.foldl (fun acc p => appendFinding acc p.1 p.2) []

/-- Report export starting at sequence number `n`: each finding becomes an
entry with the running number, the PAN masked at export time, and the
location carried over. -/
def exportFrom (n : Nat) : List Finding → List ReportEntry
  | [] => []
  | f :: fs => ⟨n, mask_pan f.pan, f.location⟩ :: exportFrom (n + 1) fs

/-- The exported report: `Result #` runs from 1, `Masked PAN` is
`mask_pan` of the stored PAN, in insertion order. -/
def exportReport (findings : List Finding) : List ReportEntry :=
  exportFrom 1 findings

/-- Digit value of a character (meaningful on digit characters). -/
def digitVal (c : Char) : Nat := c.toNat - 48

/-- Modelled from the spec's wording of the Luhn checksum, for comparison
with the code: scanning from the rightmost digit (the argument list is the
reversed digit-value list), every second digit is doubled, a doubled value
above 9 has 9 subtracted, and all values are summed. -/
def luhnSpecSum : List Nat → Bool → Nat
  | [], _ => 0
  | d :: ds, dbl =>
    (if (if dbl then 2 * d else d) > 9
     then (if dbl then 2 * d else d) - 9
     else (if dbl then 2 * d else d)) + luhnSpecSum ds (!dbl)

/-- Validity per the spec's wording: the checksum total is divisible
by 10. -/
def luhnSpecValid (s : String) : Bool :=
  luhnSpecSum ((s.data.map digitVal).reverse) false % 10 == 0

/-- Characters with equal codepoints are equal. -/
theorem char_toNat_inj {a b : Char} (h : a.toNat = b.toNat) : a = b :=
  Char.ext (UInt32.toNat.inj h)

/-- `pyIntChar` fails exactly on non-digit characters. -/
theorem pyIntChar_none_iff (c : Char) :
    pyIntChar c = none ↔ isDig c = false := by
  by_cases h : 48 ≤ c.toNat ∧ c.toNat ≤ 57 <;> simp [pyIntChar, isDig, h]

/-- On a digit character, `pyIntChar` returns its value, which is at
most 9. -/
theorem pyIntChar_digit (c : Char) (h : isDig c = true) :
    pyIntChar c = some (digitVal c) ∧ digitVal c ≤ 9 := by
  have h' : 48 ≤ c.toNat ∧ c.toNat ≤ 57 := by simpa [isDig] using h
  refine ⟨by simp [pyIntChar, h', digitVal], ?_⟩
  simp only [digitVal]
  omega

/-- A non-digit character anywhere in the list makes the Luhn loop raise
(`none`). -/
theorem luhnSumAux_none (l : List Char) (hc : ∃ c ∈ l, isDig c = false) :
    ∀ b, luhnSumAux l b = none := by
  induction l with
  | nil => simp at hc
  | cons c cs ih =>
    intro b
    obtain ⟨x, hx, hxd⟩ := hc
    match h1 : pyIntChar c with
    | none => simp [luhnSumAux, h1]
    | some d0 =>
      have hcs : ∃ y ∈ cs, isDig y = false := by
        rcases List.mem_cons.mp hx with rfl | hmem
        · exact absurd ((pyIntChar_none_iff x).mpr hxd) (by simp [h1])
        · exact ⟨x, hmem, hxd⟩
      simp [luhnSumAux, h1, ih hcs]

/-- On an all-digit list the Luhn loop computes exactly the checksum of
the spec's wording. -/
theorem luhnSumAux_digits (l : List Char) (hl : ∀ c ∈ l, isDig c = true) :
    ∀ b, luhnSumAux l b = some (luhnSpecSum (l.map digitVal) b) := by
  induction l with
  | nil => intro b; rfl
  | cons c cs ih =>
    intro b
    obtain ⟨hsome, hle⟩ := pyIntChar_digit c (hl c (by simp))
    have hcs : ∀ x ∈ cs, isDig x = true := fun x hx => hl x (by simp [hx])
    simp only [luhnSumAux, hsome, ih hcs, List.map_cons, luhnSpecSum]
    congr 1
    cases b <;> simp <;> split <;> omega

/-- C2: for every digit string, `is_luhn_valid` agrees with the Luhn
checksum as worded in the spec (double every second digit from the right,
sum the digits of doubled values, total divisible by 10), and the two
known test vectors behave as stated. -/
theorem C2_validator_is_luhn :
    (∀ s : String, (∀ c ∈ s.data, isDig c = true) →
      is_luhn_valid s = luhnSpecValid s) ∧
    is_luhn_valid "4111111111111111" = true ∧
    is_luhn_valid "4111111111111112" = false := by
  refine ⟨?_, by decide, by decide⟩
  intro s hs
  have hrev : ∀ c ∈ s.data.reverse, isDig c = true := fun c hc =>
    hs c (List.mem_reverse.mp hc)
  simp [is_luhn_valid, luhnSumAux_digits _ hrev false, luhnSpecValid,
    List.map_reverse]

/-- Witness for C2 at the standard test vector. -/
theorem C2_validator_is_luhn_witness :
    (∀ c ∈ ("4111111111111111" : String).data, isDig c = true) ∧
    is_luhn_valid "4111111111111111" = luhnSpecValid "4111111111111111" :=
  ⟨by decide, C2_validator_is_luhn.1 "4111111111111111" (by decide)⟩

/-- C9: on the empty string the Luhn loop runs zero times, the sum is 0,
and `is_luhn_valid` returns `true`. -/
theorem C9_luhn_empty_valid : is_luhn_valid "" = true := by decide

/-- C3 as amended: a string containing any non-digit character is
rejected, and a single-character string is rejected unless it is `"0"`
(whose checksum 0 is divisible by 10). -/
theorem C3_defensive_cases (s : String) :
    ((∃ c ∈ s.data, isDig c = false) → is_luhn_valid s = false) ∧
    (s.length = 1 → s ≠ "0" → is_luhn_valid s = false) := by
  constructor
  · rintro ⟨c, hc, hcd⟩
    have hn := luhnSumAux_none s.data.reverse
      ⟨c, List.mem_reverse.mpr hc, hcd⟩ false
    simp [is_luhn_valid, hn]
  · intro h1 h2
    have hd : s.data.length = 1 := h1
    obtain ⟨c, hc⟩ := List.length_eq_one.mp hd
    by_cases hdig : isDig c = true
    · obtain ⟨hsome, hle⟩ := pyIntChar_digit c hdig
      have hge : 48 ≤ c.toNat ∧ c.toNat ≤ 57 := by simpa [isDig] using hdig
      have hne : c ≠ '0' := by
        intro hc0
        apply h2
        obtain ⟨d⟩ := s
        have : d = [c] := hc
        subst this
        subst hc0
        rfl
      have hv : digitVal c ≠ 0 := by
        intro h0
        apply hne
        apply char_toNat_inj
        have h48 : ('0' : Char).toNat = 48 := by decide
        simp only [digitVal] at h0
        omega
      have h9 : digitVal c ≤ 9 := hle
      simp only [is_luhn_valid, hc, List.reverse_cons, List.reverse_nil,
        List.nil_append, luhnSumAux, hsome,
        if_neg (Bool.false_ne_true)]
      have hstep : digitVal c / 10 + digitVal c % 10 + 0 = digitVal c := by
        omega
      rw [hstep]
      simp only [Nat.mod_eq_of_lt (by omega : digitVal c < 10)]
      simpa using hv
    · have hn := luhnSumAux_none s.data.reverse
        ⟨c, by simp [hc], by simpa using hdig⟩ false
      simp [is_luhn_valid, hn]

/-- Witness for C3 at a malformed input and at a nonzero single digit. -/
theorem C3_defensive_cases_witness :
    ((∃ c ∈ ("a" : String).data, isDig c = false) ∧
      is_luhn_valid "a" = false) ∧
    (("5" : String).length = 1 ∧ ("5" : String) ≠ "0" ∧
      is_luhn_valid "5" = false) :=
  ⟨⟨by decide, (C3_defensive_cases "a").1 (by decide)⟩,
   ⟨by decide, by decide, (C3_defensive_cases "5").2 (by decide) (by decide)⟩⟩

/-- Counterexample to C3 as stated: `"0"` is a single-digit input on which
`is_luhn_valid` returns `true`, not `false`. -/
theorem C3_counterexample :
    ("0" : String).length = 1 ∧ is_luhn_valid "0" = true := by decide

/-- C5: any string shorter than 10 characters is masked to the sentinel
`"Invalid PAN"`. -/
theorem C5_mask_pan_short (pan : String) (h : pan.length < 10) :
    mask_pan pan = "Invalid PAN" := by
  simp [mask_pan, h]

/-- Witness for C5 at a 4-character input. -/
theorem C5_mask_pan_short_witness :
    ("4111" : String).length < 10 ∧ mask_pan "4111" = "Invalid PAN" :=
  ⟨by decide, C5_mask_pan_short "4111" (by decide)⟩

/-- C10: a string of exactly 10 characters is returned unchanged by
`mask_pan` (head 6 plus tail 4 cover the whole string, zero mask
characters). -/
theorem C10_mask_pan_len10 (pan : String) (h : pan.length = 10) :
    mask_pan pan = pan := by
  have h10 : pan.length - 10 = 0 := by omega
  have h4 : pan.length - 4 = 6 := by omega
  rw [mask_pan, if_neg (by omega), h10, h4]
  simp only [List.replicate_zero, List.append_nil, List.take_append_drop]

/-- Witness for C10 at a 10-character input. -/
theorem C10_mask_pan_len10_witness :
    ("4111111111" : String).length = 10 ∧
    mask_pan "4111111111" = "4111111111" :=
  ⟨by decide, C10_mask_pan_len10 "4111111111" (by decide)⟩

/-- C4: for inputs of length at least 10, masking preserves length, keeps
the first 6 and last 4 characters verbatim, replaces everything in between
with asterisks, and maps the standard test vector as stated. -/
theorem C4_mask_keep_head_tail (pan : String) (h : 10 ≤ pan.length) :
    (mask_pan pan).length = pan.length ∧
    (mask_pan pan).data.take 6 = pan.data.take 6 ∧
    (mask_pan pan).data.drop (pan.length - 4) =
      pan.data.drop (pan.length - 4) ∧
    (∀ c ∈ ((mask_pan pan).data.drop 6).take (pan.length - 10), c = '*') ∧
    mask_pan "4111111111111111" = "411111******1111" := by
  have hlen : pan.data.length = pan.length := rfl
  have hmask : (mask_pan pan).data =
      pan.data.take 6 ++ List.replicate (pan.length - 10) '*'
        ++ pan.data.drop (pan.length - 4) := by
    rw [mask_pan, if_neg (by omega)]
  have hA : (pan.data.take 6).length = 6 := by
    rw [List.length_take]; omega
  have hB : (List.replicate (pan.length - 10) '*').length =
      pan.length - 10 := List.length_replicate _ _
  have hC : (pan.data.drop (pan.length - 4)).length = 4 := by
    rw [List.length_drop]; omega
  have hAB : (pan.data.take 6 ++
      List.replicate (pan.length - 10) '*').length = pan.length - 4 := by
    rw [List.length_append, hA, hB]; omega
  refine ⟨?_, ?_, ?_, ?_, by decide⟩
  · show (mask_pan pan).data.length = pan.length
    rw [hmask]
    simp only [List.length_append, hA, hB, hC]
    omega
  · rw [hmask, List.append_assoc, List.take_left' hA]
  · rw [hmask, List.drop_left' hAB]
  · intro c hc
    rw [hmask, List.append_assoc, List.drop_left' hA,
      List.take_left' hB] at hc
    exact List.eq_of_mem_replicate hc

/-- Witness for C4 at the standard 16-digit test vector. -/
theorem C4_mask_keep_head_tail_witness :
    10 ≤ ("4111111111111111" : String).length ∧
    ((mask_pan "4111111111111111").length =
        ("4111111111111111" : String).length ∧
      (mask_pan "4111111111111111").data.take 6 =
        ("4111111111111111" : String).data.take 6 ∧
      (mask_pan "4111111111111111").data.drop
          (("4111111111111111" : String).length - 4) =
        ("4111111111111111" : String).data.drop
          (("4111111111111111" : String).length - 4) ∧
      (∀ c ∈ ((mask_pan "4111111111111111").data.drop 6).take
          (("4111111111111111" : String).length - 10), c = '*') ∧
      mask_pan "4111111111111111" = "411111******1111") :=
  ⟨by decide, C4_mask_keep_head_tail "4111111111111111" (by decide)⟩

/-- The scan result does not depend on the fuel, provided the fuel covers
the list length. -/
theorem findallAux_eq_of_le :
    ∀ (f g : Nat) (l : List Char), l.length ≤ f → l.length ≤ g →
      findallAux f l = findallAux g l := by
  intro f
  induction f with
  | zero =>
    intro g l h1 h2
    have hl : l = [] := List.eq_nil_of_length_eq_zero (by omega)
    subst hl
    cases g <;> rfl
  | succ f ih =>
    intro g l h1 h2
    cases l with
    | nil => cases g <;> rfl
    | cons c cs =>
      cases g with
      | zero => simp at h2
      | succ g' =>
        simp only [List.length_cons] at h1 h2
        simp only [findallAux]
        by_cases hr : 13 ≤ digitRun (c :: cs)
        · rw [if_pos hr, if_pos hr]
          congr 1
          have hm : 13 ≤ min (digitRun (c :: cs)) 19 := by omega
          apply ih
          · rw [List.length_drop, List.length_cons]; omega
          · rw [List.length_drop, List.length_cons]; omega
        · rw [if_neg hr, if_neg hr]
          exact ih g' cs (by omega) (by omega)

/-- One unfolding step of the regex scan: at a position opening a digit
run of at least 13, greedily match `min run 19` digits and resume after
the match; otherwise advance one character. -/
theorem findall_cons (c : Char) (cs : List Char) :
    findall (c :: cs) =
      if 13 ≤ digitRun (c :: cs) then
        ((c :: cs).take (min (digitRun (c :: cs)) 19))
          :: findall ((c :: cs).drop (min (digitRun (c :: cs)) 19))
      else findall cs := by
  show findallAux (cs.length + 1) (c :: cs) = _
  simp only [findallAux]
  by_cases hr : 13 ≤ digitRun (c :: cs)
  · rw [if_pos hr, if_pos hr]
    congr 1
    have hm : 13 ≤ min (digitRun (c :: cs)) 19 := by omega
    apply findallAux_eq_of_le
    · rw [List.length_drop, List.length_cons]; omega
    · exact Nat.le_refl _
  · rw [if_neg hr, if_neg hr]; rfl

/-- A list of non-digit characters has an empty leading digit run. -/
theorem takeWhile_all_nondig (y : List Char)
    (hy : ∀ c ∈ y, isDig c = false) : y.takeWhile isDig = [] := by
  cases y with
  | nil => rfl
  | cons c cs => simp [List.takeWhile_cons, hy c (by simp)]

/-- The leading digit run of all-digit text followed by non-digit text is
the digit text itself. -/
theorem takeWhile_digits_append (d y : List Char)
    (hd : ∀ c ∈ d, isDig c = true) (hy : ∀ c ∈ y, isDig c = false) :
    (d ++ y).takeWhile isDig = d := by
  induction d with
  | nil => simpa using takeWhile_all_nondig y hy
  | cons c cs ih =>
    simp only [List.cons_append, List.takeWhile_cons, hd c (by simp),
      if_true]
    rw [ih (fun x hx => hd x (by simp [hx]))]

/-- The leading digit run never exceeds the list length. -/
theorem digitRun_le (l : List Char) : digitRun l ≤ l.length :=
  (List.takeWhile_sublist isDig).length_le

/-- An all-digit list followed by non-digit text has digit run equal to
the digit list's length. -/
theorem digitRun_digits_append (d y : List Char)
    (hd : ∀ c ∈ d, isDig c = true) (hy : ∀ c ∈ y, isDig c = false) :
    digitRun (d ++ y) = d.length := by
  rw [digitRun, takeWhile_digits_append d y hd hy]

/-- A leading non-digit character gives a zero digit run. -/
theorem digitRun_cons_nondig (c : Char) (cs : List Char)
    (h : isDig c = false) : digitRun (c :: cs) = 0 := by
  simp [digitRun, List.takeWhile_cons, h]

/-- The scan skips over any prefix of non-digit characters. -/
theorem findall_nondig_append (x rest : List Char)
    (hx : ∀ c ∈ x, isDig c = false) :
    findall (x ++ rest) = findall rest := by
  induction x with
  | nil => rfl
  | cons c cs ih =>
    rw [List.cons_append, findall_cons, if_neg]
    · exact ih fun y hy => hx y (by simp [hy])
    · rw [digitRun_cons_nondig c _ (hx c (by simp))]
      omega

/-- The scan of pure non-digit text produces no candidates. -/
theorem findall_all_nondig (x : List Char)
    (hx : ∀ c ∈ x, isDig c = false) : findall x = [] := by
  have h := findall_nondig_append x [] hx
  simpa using h

/-- A digit run of length 13 to 19 followed by non-digit text is matched
whole, and the scan continues after it. -/
theorem findall_digits_append (d y : List Char)
    (hd : ∀ c ∈ d, isDig c = true) (hy : ∀ c ∈ y, isDig c = false)
    (h13 : 13 ≤ d.length) (h19 : d.length ≤ 19) :
    findall (d ++ y) = d :: findall y := by
  cases d with
  | nil => simp at h13
  | cons c cs =>
    have hsplit : c :: (cs ++ y) = (c :: cs) ++ y := rfl
    rw [List.cons_append, findall_cons, hsplit,
      digitRun_digits_append (c :: cs) y hd hy]
    rw [if_pos (by omega), show min (c :: cs).length 19 = (c :: cs).length
      from by omega]
    rw [List.take_left, List.drop_left]

/-- A digit run of 20 or more is NOT ignored: the scan matches its first
19 digits and resumes on the remainder. -/
theorem findall_digits_long (d : List Char)
    (hd : ∀ c ∈ d, isDig c = true) (h20 : 20 ≤ d.length) :
    findall d = d.take 19 :: findall (d.drop 19) := by
  cases d with
  | nil => simp at h20
  | cons c cs =>
    have hr : digitRun (c :: cs) = (c :: cs).length := by
      have h := digitRun_digits_append (c :: cs) [] hd (by simp)
      simpa using h
    rw [findall_cons, hr, if_pos (by omega),
      show min (c :: cs).length 19 = 19 from by omega]

/-- A digit run shorter than 13 produces no candidates. -/
theorem findall_digits_short (d : List Char)
    (hd : ∀ c ∈ d, isDig c = true) (hlt : d.length < 13) :
    findall d = [] := by
  induction d with
  | nil => rfl
  | cons c cs ih =>
    simp only [List.length_cons] at hlt
    rw [findall_cons, if_neg]
    · exact ih (fun x hx => hd x (by simp [hx])) (by omega)
    · have h := digitRun_le (c :: cs)
      simp only [List.length_cons] at h
      omega

/-- C1 as amended: on an all-digit input the scan yields exactly the input
when its length is in [13, 19] and nothing when shorter than 13, but a run
of 20 or more digits yields its 19-digit prefix followed by the scan of
the remainder, rather than no candidates. -/
theorem C1_extractor_digit_runs (d : List Char)
    (hd : ∀ c ∈ d, isDig c = true) :
    (13 ≤ d.length → d.length ≤ 19 → findall d = [d]) ∧
    (d.length < 13 → findall d = []) ∧
    (20 ≤ d.length → findall d = d.take 19 :: findall (d.drop 19)) := by
  refine ⟨?_, findall_digits_short d hd, findall_digits_long d hd⟩
  intro h13 h19
  have h := findall_digits_append d [] hd (by simp) h13 h19
  simpa using h

/-- Witness for C1 at a 16-digit input. -/
theorem C1_extractor_digit_runs_witness :
    (∀ c ∈ ("4111111111111111" : String).data, isDig c = true) ∧
    ((13 ≤ ("4111111111111111" : String).data.length →
        ("4111111111111111" : String).data.length ≤ 19 →
        findall ("4111111111111111" : String).data =
          [("4111111111111111" : String).data]) ∧
      (("4111111111111111" : String).data.length < 13 →
        findall ("4111111111111111" : String).data = []) ∧
      (20 ≤ ("4111111111111111" : String).data.length →
        findall ("4111111111111111" : String).data =
          ("4111111111111111" : String).data.take 19
            :: findall (("4111111111111111" : String).data.drop 19))) :=
  ⟨by decide, C1_extractor_digit_runs ("4111111111111111" : String).data
    (by decide)⟩

/-- Counterexample to C1 as stated: twenty `'1'`s are all digits and the
length 20 is outside [13, 19], yet the scan yields the truncated 19-digit
prefix, not the empty list. -/
theorem C1_counterexample :
    (∀ c ∈ List.replicate 20 '1', isDig c = true) ∧
    ¬ (13 ≤ (List.replicate 20 '1').length ∧
        (List.replicate 20 '1').length ≤ 19) ∧
    findall (List.replicate 20 '1') = [List.replicate 19 '1'] ∧
    findall (List.replicate 20 '1') ≠ [] := by decide

/-- `removeChar` is exactly a filter dropping the separator. -/
theorem removeChar_eq_filter (sep : Char) (l : List Char) :
    removeChar sep l = l.filter (fun c => !(c == sep)) := by
  induction l with
  | nil => rfl
  | cons c cs ih =>
    by_cases h : c = sep <;> simp [removeChar, List.filter_cons, h, ih]

/-- The Sanitizer is exactly a filter dropping spaces and hyphens. -/
theorem sanitizeL_eq_filter (l : List Char) :
    sanitizeL l = l.filter (fun c => !(c == ' ' || c == '-')) := by
  simp only [sanitizeL, removeChar_eq_filter, List.filter_filter]
  congr 1
  funext c
  by_cases h1 : c = ' ' <;> by_cases h2 : c = '-' <;>
    simp [h1, h2, Bool.and_comm]

/-- Sanitizing distributes over concatenation. -/
theorem sanitizeL_append (x y : List Char) :
    sanitizeL (x ++ y) = sanitizeL x ++ sanitizeL y := by
  simp [sanitizeL_eq_filter, List.filter_append]

/-- C6 as amended: the Sanitizer removes exactly the spaces and hyphens
(keeping all other characters in order, with empty input giving empty
output), and sanitize-then-extract yields exactly the candidate
`"4111111111111111"` on any text built from the formatted substring
`"4111 1111 1111 1111"` surrounded by digit-free context. -/
theorem C6_sanitize_then_extract (a b : String)
    (ha : ∀ c ∈ a.data, isDig c = false)
    (hb : ∀ c ∈ b.data, isDig c = false) :
    (∀ l : List Char,
      sanitizeL l = l.filter (fun c => !(c == ' ' || c == '-'))) ∧
    sanitizeL [] = [] ∧
    extractCandidates ⟨a.data ++ ("4111 1111 1111 1111").data ++ b.data⟩ =
      [("4111111111111111").data] := by
  refine ⟨sanitizeL_eq_filter, rfl, ?_⟩
  have hsa : ∀ c ∈ sanitizeL a.data, isDig c = false := by
    intro c hc
    rw [sanitizeL_eq_filter] at hc
    exact ha c (List.mem_filter.mp hc).1
  have hsb : ∀ c ∈ sanitizeL b.data, isDig c = false := by
    intro c hc
    rw [sanitizeL_eq_filter] at hc
    exact hb c (List.mem_filter.mp hc).1
  show findall (sanitizeL
    (a.data ++ ("4111 1111 1111 1111").data ++ b.data)) = _
  rw [sanitizeL_append, sanitizeL_append,
    show sanitizeL ("4111 1111 1111 1111").data =
      ("4111111111111111").data from by decide,
    List.append_assoc, findall_nondig_append _ _ hsa,
    findall_digits_append _ _ (by decide) hsb (by decide) (by decide),
    findall_all_nondig _ hsb]

/-- Witness for C6 with one non-digit character on each side. -/
theorem C6_sanitize_then_extract_witness :
    (∀ c ∈ ("x" : String).data, isDig c = false) ∧
    (∀ c ∈ ("y" : String).data, isDig c = false) ∧
    ((∀ l : List Char,
        sanitizeL l = l.filter (fun c => !(c == ' ' || c == '-'))) ∧
      sanitizeL [] = [] ∧
      extractCandidates
          ⟨("x" : String).data ++ ("4111 1111 1111 1111").data
            ++ ("y" : String).data⟩ =
        [("4111111111111111").data]) :=
  ⟨by decide, by decide,
    C6_sanitize_then_extract "x" "y" (by decide) (by decide)⟩

/-- Counterexample to C6 as stated: the text `"04111 1111 1111 1111"`
contains the formatted substring, yet sanitize-then-extract yields the
single merged 17-digit candidate and not `"4111111111111111"`. -/
theorem C6_counterexample :
    containsSub ("4111 1111 1111 1111").data
      ("04111 1111 1111 1111").data = true ∧
    extractCandidates "04111 1111 1111 1111" =
      [("04111111111111111").data] ∧
    ("4111111111111111").data ∉
      extractCandidates "04111 1111 1111 1111" := by decide

/-- Appending pairs one by one builds exactly the corresponding list of
findings, each storing its PAN verbatim. -/
theorem buildFindings_eq (pairs : List (String × String)) :
    buildFindings pairs =
      pairs.map (fun p => (⟨p.1, p.2⟩ : Finding)) := by
  have key : ∀ (ps : List (String × String)) (acc : List Finding),
      ps.foldl (fun a p => appendFinding a p.1 p.2) acc =
        acc ++ ps.map (fun p => (⟨p.1, p.2⟩ : Finding)) := by
    intro ps
    induction ps with
    | nil => intro acc; simp
    | cons p ps ih =>
      intro acc
      rw [List.foldl_cons, ih]
      simp [appendFinding]
  simpa using key pairs []

/-- Export starting at `n` pairs each finding with the running numbers
`n, n + 1, ...`, masking the stored PAN at export time. -/
theorem exportFrom_map (n : Nat) (ps : List (String × String)) :
    exportFrom n (ps.map fun p => (⟨p.1, p.2⟩ : Finding)) =
      ((List.range' n ps.length).zip ps).map
        (fun q => (⟨q.1, mask_pan q.2.1, q.2.2⟩ : ReportEntry)) := by
  induction ps generalizing n with
  | nil => rfl
  | cons p ps ih =>
    simp only [List.map_cons, exportFrom, List.length_cons,
      List.range'_succ, List.zip_cons_cons, ih]

/-- C7: for every sequence of appended `(pan, location)` pairs, the
accumulated findings store the PANs unmasked in insertion order, and the
exported report pairs the sequence numbers 1, 2, ..., n in order with the
PAN masked only at export time and the location carried over; in
particular the report has one entry per finding and its `Result #` column
is exactly `1, ..., n`. -/
theorem C7_report_export (pairs : List (String × String)) :
    (buildFindings pairs).map (fun f => f.pan) =
      pairs.map (fun p => p.1) ∧
    exportReport (buildFindings pairs) =
      ((List.range' 1 pairs.length).zip pairs).map
        (fun q => (⟨q.1, mask_pan q.2.1, q.2.2⟩ : ReportEntry)) ∧
    (exportReport (buildFindings pairs)).map (fun e => e.resultNum) =
      List.range' 1 pairs.length ∧
    (exportReport (buildFindings pairs)).length = pairs.length := by
  have hmain : exportReport (buildFindings pairs) =
      ((List.range' 1 pairs.length).zip pairs).map
        (fun q => (⟨q.1, mask_pan q.2.1, q.2.2⟩ : ReportEntry)) := by
    rw [buildFindings_eq, exportReport, exportFrom_map]
  refine ⟨?_, hmain, ?_, ?_⟩
  · rw [buildFindings_eq, List.map_map]
    rfl
  · rw [hmain, List.map_map]
    have hlen : (List.range' 1 pairs.length).length ≤ pairs.length := by
      simp [List.length_range']
    have hfst := List.map_fst_zip (List.range' 1 pairs.length) pairs hlen
    simpa using hfst
  · rw [hmain]
    simp [List.length_zip, List.length_range']

/-- A prefix test succeeds exactly when the haystack extends the
needle. -/
theorem startsWithL_iff (n : List Char) :
    ∀ h : List Char, startsWithL n h = true ↔ ∃ t, n ++ t = h := by
  induction n with
  | nil =>
    intro h
    simp [startsWithL]
  | cons c ns ih =>
    intro h
    cases h with
    | nil => simp [startsWithL]
    | cons x hs =>
      simp only [startsWithL, Bool.and_eq_true, beq_iff_eq, ih,
        List.cons_append, List.cons.injEq]
      constructor
      · rintro ⟨rfl, t, ht⟩
        exact ⟨t, rfl, ht⟩
      · rintro ⟨t, rfl, ht⟩
        exact ⟨rfl, t, ht⟩

/-- The substring test of Python's `in` succeeds exactly when the needle
occurs contiguously inside the haystack. -/
theorem containsSub_iff (n : List Char) :
    ∀ h : List Char, containsSub n h = true ↔ ∃ u v, u ++ n ++ v = h := by
  intro h
  induction h with
  | nil =>
    simp only [containsSub, List.isEmpty_iff]
    constructor
    · rintro rfl
      exact ⟨[], [], rfl⟩
    · rintro ⟨u, v, he⟩
      rcases List.append_eq_nil.mp he with ⟨h1, h2⟩
      exact (List.append_eq_nil.mp h1).2
  | cons c hs ih =>
    simp only [containsSub, Bool.or_eq_true, startsWithL_iff, ih]
    constructor
    · rintro (⟨t, ht⟩ | ⟨u, v, rfl⟩)
      · exact ⟨[], t, by simpa using ht⟩
      · exact ⟨c :: u, v, rfl⟩
    · rintro ⟨u, v, he⟩
      cases u with
      | nil =>
        left
        exact ⟨v, by simpa using he⟩
      | cons x us =>
        right
        rw [List.cons_append, List.cons_append, List.cons.injEq] at he
        exact ⟨us, v, by simpa using he.2⟩

/-- C8: a column type string is selected for scanning exactly when its
uppercased form contains one of the keywords CHAR, VARCHAR, TEXT,
TINYTEXT, MEDIUMTEXT, LONGTEXT, JSON as a substring; `"INT"` is never
selected, `"VARCHAR(255)"` always is. -/
theorem C8_column_type_filter :
    (∀ t : String, scannableType t = true ↔
      ∃ k ∈ typeKeywords, ∃ u v, u ++ k.data ++ v = pyUpper t.data) ∧
    scannableType "INT" = false ∧ scannableType "VARCHAR(255)" = true := by
  refine ⟨?_, by decide, by decide⟩
  intro t
  simp only [scannableType, List.any_eq_true, containsSub_iff]

end SqlSupport
